import Mathlib

/-
  Shallow embedding of src/archipack/archipack_2d.py (2D geometry kernel:
  Line, Circle, Arc, offsetting and offset-join logic).

  Conventions of the embedding:
  * Python floats are idealised as real numbers.
  * mathutils 2D vectors become the structure V2; the mathutils dot product
    (written u * v in the source) is dotv; Vector.length is V2.len;
    Vector.normalized() returns the zero vector on zero input, as mathutils does.
  * math.atan2 is idealised as Complex.arg of the complex number x + y i,
    matching atan2's range (-pi, pi] and atan2 0 0 = 0.
  * Python code that can raise (division by zero when a segment has zero
    length, math.sqrt of a negative number) is embedded with Option: a `none`
    result marks a Python crash (ZeroDivisionError / ValueError).
  * Methods that mutate the receiver and the passed-in `previous` segment
    (the setters and make_offset) are embedded as functions returning the
    updated records; make_offset returns (result, updated last).
  * Derived cached fields (Circle.r2) are embedded as functions; the source
    keeps the cache coherent with r at every write.
-/

noncomputable section

namespace Archipack

open Complex ComplexConjugate

/-- mathutils-style 2D vector with real components. -/
@[ext]
structure V2 where
  x : ℝ
  y : ℝ

instance : Add V2 := ⟨fun a b => ⟨a.x + b.x, a.y + b.y⟩⟩
instance : Sub V2 := ⟨fun a b => ⟨a.x - b.x, a.y - b.y⟩⟩
instance : SMul ℝ V2 := ⟨fun k v => ⟨k * v.x, k * v.y⟩⟩

/-- mathutils dot product (`u * v` on 2D vectors in the source). -/
def dotv (a b : V2) : ℝ := a.x * b.x + a.y * b.y

/-- mathutils `Vector.length`. -/
def V2.len (v : V2) : ℝ := Real.sqrt (v.x ^ 2 + v.y ^ 2)

/-- mathutils `Vector.normalized()`: zero vector stays zero, otherwise v / |v|. -/
def V2.normalized (v : V2) : V2 :=
  if v.len = 0 then ⟨0, 0⟩ else ⟨v.x / v.len, v.y / v.len⟩

/-- math.atan2 idealised as the complex argument of x + y i. -/
def atan2 (y x : ℝ) : ℝ := Complex.arg ⟨x, y⟩

/-- View of a 2D vector as a complex number (proof device only). -/
def V2.toC (v : V2) : ℂ := ⟨v.x, v.y⟩

/-- `Line`: stored as origin `p` plus direction-and-size vector `v`. -/
@[ext]
structure Line where
  p : V2
  v : V2

/-- `Line.p0` property getter. -/
def Line.p0 (l : Line) : V2 := l.p

/-- `Line.p1` property getter: `p + v`. -/
def Line.p1 (l : Line) : V2 := l.p + l.v

/-- `Line.p0` property setter: moves p0 only, keeping p1. -/
def Line.setP0 (l : Line) (q : V2) : Line := ⟨q, l.p1 - q⟩

/-- `Line.p1` property setter: moves p1 only, keeping p. -/
def Line.setP1 (l : Line) (q : V2) : Line := ⟨l.p, q - l.p⟩

/-- `Line.length`. -/
def Line.length (l : Line) : ℝ := l.v.len

/-- `Line.angle = atan2(v.y, v.x)`. -/
def Line.angle (l : Line) : ℝ := atan2 l.v.y l.v.x

/-- `Line.cross_z = (v.y, -v.x)`, right-hand perpendicular. -/
def Line.cross_z (l : Line) : V2 := ⟨l.v.y, -l.v.x⟩

/-- `signed_angle(u, v) = atan2(u x v, u . v)` (identical on Line and Arc). -/
def signed_angle (u v : V2) : ℝ :=
  atan2 (u.x * v.y - u.y * v.x) (u.x * v.x + u.y * v.y)

/-- `Line.lerp(t) = p + v * t`. -/
def Line.lerp (l : Line) (t : ℝ) : V2 := l.p + t • l.v

/-- `Line.intersect`: 2D cross-product method; `(False, 0, 0)` when parallel.
    The junk point in the `False` case embeds Python's integer 0 slot. -/
def Line.intersect (self other : Line) : Bool × V2 × ℝ :=
  let c := other.cross_z
  let d := dotv self.v c
  if d = 0 then (false, ⟨0, 0⟩, 0)
  else
    let t := dotv c (other.p - self.p) / d
    (true, self.lerp t, t)

/-- `Line.point_sur_segment`: orthogonal projection onto the infinite line.
    Divides by the length, so a zero-length line crashes (`none`). -/
def Line.point_sur_segment (self : Line) (pt : V2) : Option (Bool × ℝ × ℝ) :=
  let dp := pt - self.p
  let dl := self.length
  if dl = 0 then none
  else
    let d := (self.v.x * dp.y - self.v.y * dp.x) / dl
    let t := dotv self.v dp / (dl * dl)
    some (decide (0 < t ∧ t < 1), d, t)

/-- `Line.offset(offset)`: translate by `offset * normalize(cross_z)`. -/
def Line.offset (self : Line) (off : ℝ) : Line :=
  ⟨self.p + off • self.cross_z.normalized, self.v⟩

/-- `Circle`: center and radius. -/
structure Circle where
  c : V2
  r : ℝ

/-- Cached `r2` field of Circle, always `r * r` in the source. -/
def Circle.r2 (ci : Circle) : ℝ := ci.r * ci.r

/-- `Circle.intersect(line)`: quadratic solve; fallback projects the center
    onto the line (crashing on a zero-length line, hence Option). -/
def Circle.intersect (self : Circle) (line : Line) : Option (Bool × V2 × ℝ) :=
  let v := line.p - self.c
  let A := dotv line.v line.v
  let B := 2 * dotv v line.v
  let C := dotv v v - self.r2
  let d := B * B - 4 * A * C
  if A ≤ 0.0000001 ∨ d < 0 then
    match line.point_sur_segment self.c with
    | none => none
    | some (_, _, t) => some (false, line.lerp t, t)
  else if d = 0 then
    let t := -B / 2 * A
    some (true, line.lerp t, t)
  else
    let AA := 2 * A
    let dsq := Real.sqrt d
    let t0 := (-B + dsq) / AA
    let t1 := (-B - dsq) / AA
    if |t0| < |t1| then some (true, line.lerp t0, t0)
    else some (true, line.lerp t1, t1)

/-- `Arc`: extends Circle with start angle `a0` and signed sweep `da`. -/
@[ext]
structure Arc where
  c : V2
  r : ℝ
  a0 : ℝ
  da : ℝ

/-- Cached `r2` field of Arc, always `r * r` in the source. -/
def Arc.r2 (a : Arc) : ℝ := a.r * a.r

/-- `Arc.ccw`: true when `da > 0`. -/
def Arc.ccw (a : Arc) : Prop := a.da > 0

/-- `Arc.lerp(t) = c + r * (cos(a0 + t*da), sin(a0 + t*da))`. -/
def Arc.lerp (arc : Arc) (t : ℝ) : V2 :=
  let a := arc.a0 + t * arc.da
  arc.c + (⟨arc.r * Real.cos a, arc.r * Real.sin a⟩ : V2)

/-- `Arc.p0` property getter. -/
def Arc.p0 (a : Arc) : V2 := a.lerp 0

/-- `Arc.p1` property getter. -/
def Arc.p1 (a : Arc) : V2 := a.lerp 1

/-- `Arc.rot_scale_matrix(u, v)`: scale factor and the 2x2 matrix
    `[[ca, sa], [-sa, ca]]` built from the signed angle and length ratio.
    Divides by `u.length`, so `u = 0` crashes (`none`). -/
structure M2 where
  m00 : ℝ
  m01 : ℝ
  m10 : ℝ
  m11 : ℝ

/-- Matrix-times-column-vector, mathutils `Matrix * Vector`. -/
def M2.mulVec (m : M2) (v : V2) : V2 :=
  ⟨m.m00 * v.x + m.m01 * v.y, m.m10 * v.x + m.m11 * v.y⟩

/-- `Arc.rot_scale_matrix` body (the docstring of the source promises a
    rotate-and-scale of the center so the arc fits v). -/
def Arc.rot_scale_matrix (_self : Arc) (u v : V2) : Option (ℝ × M2) :=
  let a := signed_angle u v
  if u.len = 0 then none
  else
    let scale := v.len / u.len
    let ca := scale * Real.cos a
    let sa := scale * Real.sin a
    some (scale, ⟨ca, sa, -sa, ca⟩)

/-- `Arc.p0` property setter: rotate/scale about p1, then recompute a0
    (the source recomputes a0 from the property `self.p0`, which at that
    point evaluates from the new c and r and the *old* a0). -/
def Arc.setP0 (self : Arc) (q : V2) : Option Arc :=
  let u := self.p0 - self.p1
  let v := q - self.p1
  match self.rot_scale_matrix u v with
  | none => none
  | some (scale, tM) =>
    let c := self.p1 + tM.mulVec (self.c - self.p1)
    let r := self.r * scale
    let tmp : Arc := ⟨c, r, self.a0, self.da⟩
    let dp := tmp.p0 - c
    some ⟨c, r, atan2 dp.y dp.x, self.da⟩

/-- `Arc.p1` property setter: rotate/scale about p0, then recompute a0
    exactly as the source does (again from the property `self.p0`). -/
def Arc.setP1 (self : Arc) (q : V2) : Option Arc :=
  let u := self.p1 - self.p0
  let v := q - self.p0
  match self.rot_scale_matrix u v with
  | none => none
  | some (scale, tM) =>
    let c := self.p0 + tM.mulVec (self.c - self.p0)
    let r := self.r * scale
    let tmp : Arc := ⟨c, r, self.a0, self.da⟩
    let dp := tmp.p0 - c
    some ⟨c, r, atan2 dp.y dp.x, self.da⟩

/-- `Arc.offset(offset)`: grow/shrink the radius by the winding sense,
    preserving c, a0, da. -/
def Arc.offset (self : Arc) (offset : ℝ) : Arc :=
  if self.da > 0 then ⟨self.c, self.r + offset, self.a0, self.da⟩
  else ⟨self.c, self.r - offset, self.a0, self.da⟩

/-- Dynamic neighbour type used by make_offset's `type(last).__name__` test. -/
inductive Seg where
  | line : Line → Seg
  | arc : Arc → Seg

/-- `Line.make_offset(offset, last)`: returns the offset line and the updated
    `last` segment (the source mutates `last` in place). `none` is a crash. -/
def Line.make_offset (self : Line) (offset : ℝ) (last : Option Seg) :
    Option (Line × Option Seg) :=
  let line := self.offset offset
  match last with
  | none => some (line, none)
  | some (Seg.arc last) =>
    match line.point_sur_segment last.c with
    | none => none
    | some (_, d, t) =>
      let c := last.r * last.r - d * d
      let p0 :=
        if c ≤ 0 then line.lerp t
        else if t > 0 then line.lerp t - Real.sqrt c • line.v.normalized
        else line.lerp t + Real.sqrt c • line.v.normalized
      let u := last.p0 - last.c
      let v := p0 - last.c
      let da0 := signed_angle u v
      let da :=
        if last.da > 0 then (if da0 < 0 then 2 * Real.pi + da0 else da0)
        else (if da0 > 0 then 2 * Real.pi - da0 else da0)
      some (line.setP0 p0, some (Seg.arc ⟨last.c, last.r, last.a0, da⟩))
  | some (Seg.line last) =>
    let c := line.cross_z
    let d := dotv last.v c
    if d = 0 then some (line, some (Seg.line last))
    else
      let v := line.p - last.p
      let t := dotv c v / d
      let c2 := last.cross_z
      let u := dotv c2 v / d
      if u > 1 ∨ t < 0 then some (line, some (Seg.line last))
      else
        let p := last.lerp t
        some (line.setP0 p, some (Seg.line (last.setP1 p)))

/-- `Arc.make_offset(offset, last)`: returns the offset arc and the updated
    `last` segment. `none` marks a Python crash (zero-length division or
    sqrt of a negative number in the arc/arc branch). -/
def Arc.make_offset (self : Arc) (offset : ℝ) (last : Option Seg) :
    Option (Arc × Option Seg) :=
  let line := self.offset offset
  match last with
  | none => some (line, none)
  | some (Seg.line last) =>
    match last.point_sur_segment line.c with
    | none => none
    | some (_, d, t) =>
      let c := line.r2 - d * d
      let p0 :=
        if c ≤ 0 then last.lerp t
        else if t > 1 then last.lerp t - Real.sqrt c • last.v.normalized
        else last.lerp t + Real.sqrt c • last.v.normalized
      let u := p0 - line.c
      let v := line.p1 - line.c
      let a0' := atan2 u.y u.x
      let da0 := signed_angle u v
      let da :=
        if self.da > 0 then (if da0 < 0 then 2 * Real.pi + da0 else da0)
        else (if da0 > 0 then 2 * Real.pi - da0 else da0)
      some (⟨line.c, line.r, a0', da⟩, some (Seg.line (last.setP1 p0)))
  | some (Seg.arc last) =>
    let dc := line.c - last.c
    let tmp : Line := ⟨last.c, dc⟩
    match tmp.point_sur_segment self.p0 with
    | none => none
    | some (_, d, _) =>
      let r := line.r + last.r
      let dist := dc.len
      if dist > r ∨ dist < |last.r - self.r| then some (line, some (Seg.arc last))
      else
        let p0opt : Option V2 :=
          if dist = r then some (((-last.r) / r) • dc + self.c)
          else
            let a := (last.r2 - line.r2 + dist * dist) / (2.0 * dist)
            let v2 := last.c + (a / dist) • dc
            if last.r2 - a * a < 0 then none
            else
              let h := Real.sqrt (last.r2 - a * a)
              let rv := (h / dist) • (⟨-dc.y, dc.x⟩ : V2)
              let p0 := v2 + rv
              match tmp.point_sur_segment p0 with
              | none => none
              | some (_, d1, _) =>
                some (if d1 > 0 then (if d < 0 then v2 - rv else p0)
                      else (if d > 0 then v2 - rv else p0))
        match p0opt with
        | none => none
        | some p0 =>
          let u := last.p0 - last.c
          let vv := p0 - last.c
          let lastda := signed_angle u vv
          let u2 := vv
          let v2' := line.p1 - line.c
          some (⟨line.c, line.r, atan2 u2.y u2.x, signed_angle u2 v2'⟩,
                some (Seg.arc ⟨last.c, last.r, last.a0, lastda⟩))

/-! ### Component and bridge lemmas -/

@[simp]
theorem V2.add_x (a b : V2) : (a + b).x = a.x + b.x := rfl

@[simp]
theorem V2.add_y (a b : V2) : (a + b).y = a.y + b.y := rfl

@[simp]
theorem V2.sub_x (a b : V2) : (a - b).x = a.x - b.x := rfl

@[simp]
theorem V2.sub_y (a b : V2) : (a - b).y = a.y - b.y := rfl

@[simp]
theorem V2.smul_x (k : ℝ) (a : V2) : (k • a).x = k * a.x := rfl

@[simp]
theorem V2.smul_y (k : ℝ) (a : V2) : (k • a).y = k * a.y := rfl

theorem V2.len_nonneg (v : V2) : 0 ≤ v.len := Real.sqrt_nonneg _

theorem V2.len_sq (v : V2) : v.len * v.len = v.x ^ 2 + v.y ^ 2 := by
  have h := Real.sq_sqrt (by positivity : (0:ℝ) ≤ v.x ^ 2 + v.y ^ 2)
  calc v.len * v.len = v.len ^ 2 := by ring
  _ = v.x ^ 2 + v.y ^ 2 := h

theorem V2.toC_sub (a b : V2) : (a - b).toC = a.toC - b.toC := by
  apply Complex.ext <;> simp [V2.toC]

theorem V2.toC_inj {a b : V2} (h : a.toC = b.toC) : a = b := by
  have hx := congrArg Complex.re h
  have hy := congrArg Complex.im h
  simp [V2.toC] at hx hy
  exact V2.ext hx hy

theorem normSq_toC (w : V2) : Complex.normSq w.toC = dotv w w := by
  simp [V2.toC, Complex.normSq_mk, dotv]

theorem signed_angle_arg (u v : V2) :
    signed_angle u v = Complex.arg (conj u.toC * v.toC) := by
  unfold signed_angle atan2
  congr 1
  apply Complex.ext <;>
    simp [V2.toC, Complex.mul_re, Complex.mul_im] <;> ring

theorem mk_cos_sin (θ : ℝ) :
    (⟨Real.cos θ, Real.sin θ⟩ : ℂ) = Complex.exp ((θ : ℂ) * Complex.I) := by
  apply Complex.ext <;>
    simp [Complex.exp_ofReal_mul_I_re, Complex.exp_ofReal_mul_I_im]

theorem arc_lerp_toC (a : Arc) (t : ℝ) :
    (a.lerp t).toC = a.c.toC +
      (a.r : ℂ) * Complex.exp (((a.a0 + t * a.da : ℝ) : ℂ) * Complex.I) := by
  unfold Arc.lerp
  rw [← mk_cos_sin]
  apply Complex.ext <;> simp [V2.toC]

theorem exp_arg_mul_I (w : ℂ) (h : w ≠ 0) :
    Complex.exp ((w.arg : ℂ) * Complex.I) = w / (Complex.abs w : ℂ) := by
  have habs : (Complex.abs w : ℂ) ≠ 0 := by
    simpa using (Complex.abs.ne_zero h)
  field_simp
  rw [mul_comm]
  exact Complex.abs_mul_exp_arg_mul_I w

/-- Core reconstruction fact: if `u = r·e^{i a0}` with `r ≠ 0` and `v` has
    squared length `r*r`, then rotating `u` by the signed angle from `u` to
    `v` yields `v` exactly. -/
theorem rot_reconstruct (r a0 : ℝ) (v : ℂ) (hr : r ≠ 0)
    (hv : Complex.normSq v = r * r) :
    (r : ℂ) * Complex.exp ((a0 : ℂ) * Complex.I) *
      Complex.exp (((Complex.arg (conj ((r : ℂ) * Complex.exp ((a0 : ℂ) * Complex.I)) * v) : ℝ) : ℂ)
        * Complex.I) = v := by
  set u : ℂ := (r : ℂ) * Complex.exp ((a0 : ℂ) * Complex.I) with hu
  have hrr : (0:ℝ) < r * r := mul_self_pos.mpr hr
  have hvne : v ≠ 0 := by
    intro h
    rw [h, Complex.normSq_zero] at hv
    exact hrr.ne hv
  have hune : u ≠ 0 := by
    rw [hu]
    exact mul_ne_zero (Complex.ofReal_ne_zero.mpr hr) (Complex.exp_ne_zero _)
  have habsu : Complex.abs u = |r| := by
    rw [hu, map_mul, Complex.abs_ofReal, Complex.abs_exp_ofReal_mul_I, mul_one]
  have habsv : Complex.abs v = |r| := by
    rw [Complex.abs_apply, hv, Real.sqrt_mul_self_eq_abs]
  have hwne : conj u * v ≠ 0 := by
    exact mul_ne_zero (star_ne_zero.mpr hune) hvne
  rw [exp_arg_mul_I _ hwne]
  have habsw : Complex.abs (conj u * v) = r * r := by
    rw [map_mul, Complex.abs_conj, habsu, habsv, abs_mul_abs_self]
  rw [habsw]
  have hnsq : Complex.normSq u = r * r := by
    calc Complex.normSq u = Complex.abs u ^ 2 := (Complex.sq_abs u).symm
      _ = |r| ^ 2 := by rw [habsu]
      _ = r * r := by rw [pow_two]; exact abs_mul_abs_self r
  have hnu : u * conj u = ((r * r : ℝ) : ℂ) := by
    rw [Complex.mul_conj, hnsq]
  have hrC : (r : ℂ) ≠ 0 := Complex.ofReal_ne_zero.mpr hr
  calc u * (conj u * v / ((r * r : ℝ) : ℂ))
      = (u * conj u) * v / ((r * r : ℝ) : ℂ) := by ring
    _ = v := by rw [hnu]; push_cast; field_simp

/-- Unpacks a successful `point_sur_segment` call into the formulas of the
    source. -/
theorem psur_spec (l : Line) (pt : V2) (b : Bool) (d t : ℝ)
    (h : l.point_sur_segment pt = some (b, d, t)) :
    l.length ≠ 0 ∧
      d = (l.v.x * (pt - l.p).y - l.v.y * (pt - l.p).x) / l.length ∧
      t = dotv l.v (pt - l.p) / (l.length * l.length) := by
  unfold Line.point_sur_segment at h
  by_cases h0 : l.length = 0
  · simp [h0] at h
  · simp [h0] at h
    exact ⟨h0, h.2.1.symm, h.2.2.symm⟩

/-- Orthogonal expansion: adding `k` along a unit vector orthogonal to `m`
    adds `k^2` to the squared length. -/
theorem dot_add_unit (m n : V2) (k : ℝ) (hmn : dotv m n = 0)
    (hn : dotv n n = 1) :
    dotv (m + k • n) (m + k • n) = dotv m m + k ^ 2 := by
  simp only [dotv, V2.add_x, V2.add_y, V2.smul_x, V2.smul_y] at *
  linear_combination (2 * k) * hmn + k ^ 2 * hn

/-- The projection foot `lerp t` of `pt` is orthogonal to the direction. -/
theorem foot_orth (l : Line) (pt : V2) (b : Bool) (d t : ℝ)
    (h : l.point_sur_segment pt = some (b, d, t)) :
    dotv (l.lerp t - pt) l.v = 0 := by
  obtain ⟨hL, hd, ht⟩ := psur_spec l pt b d t h
  have hLL : l.length * l.length = l.v.x ^ 2 + l.v.y ^ 2 := V2.len_sq l.v
  have hS : l.v.x ^ 2 + l.v.y ^ 2 ≠ 0 := by
    rw [← hLL]; exact mul_ne_zero hL hL
  rw [ht, hLL]
  simp only [dotv, Line.lerp, V2.add_x, V2.add_y, V2.sub_x, V2.sub_y,
    V2.smul_x, V2.smul_y]
  field_simp
  ring

/-- Squared distance from `pt` to its projection foot equals `d^2`. -/
theorem foot_dist (l : Line) (pt : V2) (b : Bool) (d t : ℝ)
    (h : l.point_sur_segment pt = some (b, d, t)) :
    dotv (l.lerp t - pt) (l.lerp t - pt) = d * d := by
  obtain ⟨hL, hd, ht⟩ := psur_spec l pt b d t h
  have hLL : l.length * l.length = l.v.x ^ 2 + l.v.y ^ 2 := V2.len_sq l.v
  have hS : l.v.x ^ 2 + l.v.y ^ 2 ≠ 0 := by
    rw [← hLL]; exact mul_ne_zero hL hL
  have hdd : d * d =
      ((l.v.x * (pt - l.p).y - l.v.y * (pt - l.p).x) *
       (l.v.x * (pt - l.p).y - l.v.y * (pt - l.p).x)) /
        (l.v.x ^ 2 + l.v.y ^ 2) := by
    rw [hd, div_mul_div_comm, hLL]
  rw [hdd, ht, hLL]
  simp only [dotv, Line.lerp, V2.add_x, V2.add_y, V2.sub_x, V2.sub_y,
    V2.smul_x, V2.smul_y]
  field_simp
  ring

/-- The normalized direction of a nonzero line is a unit vector parallel to v. -/
theorem normalized_unit (v : V2) (hv : v.len ≠ 0) :
    dotv v.normalized v.normalized = 1 ∧
      ∀ m : V2, dotv m v = 0 → dotv m v.normalized = 0 := by
  have hLL : v.len * v.len = v.x ^ 2 + v.y ^ 2 := V2.len_sq v
  constructor
  · unfold V2.normalized
    rw [if_neg hv]
    simp only [dotv]
    field_simp
    linarith [hLL]
  · intro m hm
    unfold V2.normalized
    rw [if_neg hv]
    simp only [dotv] at *
    field_simp
    linarith [hm]

theorem V2.toC_add (a b : V2) : (a + b).toC = a.toC + b.toC := by
  apply Complex.ext <;> simp [V2.toC]

theorem V2.add_sub_cancel (c p : V2) : c + (p - c) = p := by
  ext <;> simp

theorem Line.setP0_p0 (l : Line) (q : V2) : (l.setP0 q).p0 = q := rfl

theorem Line.setP1_p1 (l : Line) (q : V2) : (l.setP1 q).p1 = q := by
  unfold Line.setP1 Line.p1
  ext <;> simp

/-- If a point `P` lies at distance `|r|` from the arc's center, then
    rebuilding the sweep from the raw signed angle (possibly shifted by
    `+2*pi`) makes the arc end exactly at `P`. -/
theorem arc_point_reconstruct (arc : Arc) (P : V2) (hr : arc.r ≠ 0)
    (hdist : dotv (P - arc.c) (P - arc.c) = arc.r * arc.r) (k : ℝ)
    (hk : k = signed_angle (arc.p0 - arc.c) (P - arc.c) ∨
          k = 2 * Real.pi + signed_angle (arc.p0 - arc.c) (P - arc.c)) :
    Arc.p1 ⟨arc.c, arc.r, arc.a0, k⟩ = P := by
  apply V2.toC_inj
  have hP : (P - arc.c).toC = P.toC - arc.c.toC := V2.toC_sub P arc.c
  have hns : Complex.normSq (P - arc.c).toC = arc.r * arc.r := by
    rw [normSq_toC]; exact hdist
  have hu : (arc.p0 - arc.c).toC =
      (arc.r : ℂ) * Complex.exp ((arc.a0 : ℂ) * Complex.I) := by
    rw [V2.toC_sub]
    have h0 : arc.p0 = arc.lerp 0 := rfl
    rw [h0, arc_lerp_toC]
    have : (arc.a0 + 0 * arc.da : ℝ) = arc.a0 := by ring
    rw [this]
    ring
  have hsa : signed_angle (arc.p0 - arc.c) (P - arc.c) =
      Complex.arg (conj ((arc.r : ℂ) * Complex.exp ((arc.a0 : ℂ) * Complex.I)) *
        (P - arc.c).toC) := by
    rw [signed_angle_arg, hu]
  have hrec := rot_reconstruct arc.r arc.a0 (P - arc.c).toC hr hns
  have hgoal : (arc.r : ℂ) *
      Complex.exp (((arc.a0 + k : ℝ) : ℂ) * Complex.I) = (P - arc.c).toC := by
    rcases hk with hk | hk
    · rw [hk, hsa]
      push_cast
      rw [add_mul, Complex.exp_add, ← mul_assoc]
      exact hrec
    · rw [hk, hsa]
      push_cast
      have harg : ((arc.a0 : ℂ) + (2 * (Real.pi : ℂ) +
          (Complex.arg (conj ((arc.r : ℂ) * Complex.exp ((arc.a0 : ℂ) * Complex.I)) *
            (P - arc.c).toC) : ℝ))) * Complex.I =
          ((arc.a0 : ℂ) + (Complex.arg (conj ((arc.r : ℂ) * Complex.exp ((arc.a0 : ℂ) * Complex.I)) *
            (P - arc.c).toC) : ℝ)) * Complex.I + 2 * (Real.pi : ℂ) * Complex.I := by
        ring
      rw [harg, Complex.exp_add]
      have h2pi : Complex.exp (2 * (Real.pi : ℂ) * Complex.I) = 1 :=
        Complex.exp_two_pi_mul_I
      rw [h2pi, mul_one, add_mul, Complex.exp_add, ← mul_assoc]
      exact hrec
  have hlerp := arc_lerp_toC ⟨arc.c, arc.r, arc.a0, k⟩ 1
  unfold Arc.p1
  rw [hlerp]
  simp only
  have h1 : (arc.a0 + 1 * k : ℝ) = (arc.a0 + k : ℝ) := by ring
  rw [h1, hgoal, hP]
  ring

/-- If `u` has squared length `R*R` with `R > 0`, an arc centred at `C` with
    radius `R` and start angle `atan2 u.y u.x` starts exactly at `C + u`. -/
theorem arc_start_reconstruct (C : V2) (R : ℝ) (u : V2) (da : ℝ) (hR : 0 < R)
    (hdist : dotv u u = R * R) :
    Arc.p0 ⟨C, R, atan2 u.y u.x, da⟩ = C + u := by
  apply V2.toC_inj
  have hns : Complex.normSq u.toC = R * R := by rw [normSq_toC]; exact hdist
  have hune : u.toC ≠ 0 := by
    intro h
    rw [h, Complex.normSq_zero] at hns
    exact (mul_self_pos.mpr hR.ne.symm).ne hns
  have habs : Complex.abs u.toC = R := by
    rw [Complex.abs_apply, hns, Real.sqrt_mul_self_eq_abs, abs_of_pos hR]
  have hatan : atan2 u.y u.x = Complex.arg u.toC := rfl
  have h0 : Arc.p0 ⟨C, R, atan2 u.y u.x, da⟩ = Arc.lerp ⟨C, R, atan2 u.y u.x, da⟩ 0 := rfl
  rw [h0, arc_lerp_toC]
  simp only
  have h1 : (atan2 u.y u.x + 0 * da : ℝ) = atan2 u.y u.x := by ring
  rw [h1, hatan, V2.toC_add, exp_arg_mul_I u.toC hune, habs]
  have hRC : (R : ℂ) ≠ 0 := Complex.ofReal_ne_zero.mpr hR.ne.symm
  field_simp

/-- Distance from the shifted projection foot to the projected point:
    moving `s * sqrt c` along the normalized direction from the foot gives a
    point at squared distance `d*d + c`. -/
theorem join_point_dist (l : Line) (pt : V2) (b : Bool) (d t c : ℝ)
    (h : l.point_sur_segment pt = some (b, d, t)) (hc : 0 ≤ c) (s : ℝ)
    (hs : s = 1 ∨ s = -1) :
    dotv ((l.lerp t + (s * Real.sqrt c) • l.v.normalized) - pt)
         ((l.lerp t + (s * Real.sqrt c) • l.v.normalized) - pt) = d * d + c := by
  have hL : l.length ≠ 0 := (psur_spec l pt b d t h).1
  have hvl : l.v.len ≠ 0 := hL
  have hm : dotv (l.lerp t - pt) l.v = 0 := foot_orth l pt b d t h
  obtain ⟨hn1, hn2⟩ := normalized_unit l.v hvl
  have horth : dotv (l.lerp t - pt) l.v.normalized = 0 := hn2 _ hm
  have hrw : (l.lerp t + (s * Real.sqrt c) • l.v.normalized) - pt
      = (l.lerp t - pt) + (s * Real.sqrt c) • l.v.normalized := by
    ext <;> simp <;> ring
  rw [hrw, dot_add_unit _ _ _ horth hn1, foot_dist l pt b d t h]
  have hsq : (s * Real.sqrt c) ^ 2 = c := by
    have h1 : s ^ 2 = 1 := by rcases hs with hs | hs <;> rw [hs] <;> norm_num
    rw [mul_pow, h1, one_mul, Real.sq_sqrt hc]
  rw [hsq]

/-- Line/line join: under the source's acceptance conditions the join point
    is `last.lerp t` and both mutated segments are returned. -/
theorem lineline_join (self last : Line) (offset d t u : ℝ)
    (hd : d = dotv last.v (self.offset offset).cross_z) (hd0 : d ≠ 0)
    (ht : t = dotv (self.offset offset).cross_z ((self.offset offset).p - last.p) / d)
    (hu : u = dotv last.cross_z ((self.offset offset).p - last.p) / d)
    (hrej : ¬ (u > 1 ∨ t < 0)) :
    Line.make_offset self offset (some (Seg.line last)) =
      some ((self.offset offset).setP0 (last.lerp t),
            some (Seg.line (last.setP1 (last.lerp t)))) := by
  subst hd
  subst ht
  subst hu
  simp only [Line.make_offset]
  rw [if_neg hd0, if_neg hrej]

/-- Arc-then-line join (`Line.make_offset` with an Arc previous): when the
    circle reaches the offset line and the winding correction is not in the
    broken clockwise case, the rebuilt arc ends exactly at the join point. -/
theorem arcline_join (self : Line) (offset : ℝ) (arc : Arc) (b : Bool) (d t : ℝ)
    (hpsur : (self.offset offset).point_sur_segment arc.c = some (b, d, t))
    (hc : 0 < arc.r * arc.r - d * d) (P : V2)
    (hP : P = if t > 0
        then (self.offset offset).lerp t -
          Real.sqrt (arc.r * arc.r - d * d) • (self.offset offset).v.normalized
        else (self.offset offset).lerp t +
          Real.sqrt (arc.r * arc.r - d * d) • (self.offset offset).v.normalized)
    (hccw : 0 < arc.da ∨ signed_angle (arc.p0 - arc.c) (P - arc.c) ≤ 0) :
    ∃ res arcr, Line.make_offset self offset (some (Seg.arc arc)) =
      some (res, some (Seg.arc arcr)) ∧ arcr.p1 = res.p0 := by
  have hr : arc.r ≠ 0 := by
    intro h0
    rw [h0] at hc
    nlinarith [mul_self_nonneg d]
  have hdist : dotv (P - arc.c) (P - arc.c) = arc.r * arc.r := by
    by_cases htt : t > 0
    · have hP' : P = (self.offset offset).lerp t +
          ((-1) * Real.sqrt (arc.r * arc.r - d * d)) • (self.offset offset).v.normalized := by
        rw [hP, if_pos htt]
        ext <;> simp <;> ring
      rw [hP', join_point_dist _ _ _ _ _ _ hpsur hc.le _ (Or.inr rfl)]
      ring
    · have hP' : P = (self.offset offset).lerp t +
          (1 * Real.sqrt (arc.r * arc.r - d * d)) • (self.offset offset).v.normalized := by
        rw [hP, if_neg htt]
        ext <;> simp <;> ring
      rw [hP', join_point_dist _ _ _ _ _ _ hpsur hc.le _ (Or.inl rfl)]
      ring
  refine ⟨(self.offset offset).setP0 P,
    ⟨arc.c, arc.r, arc.a0,
      if arc.da > 0 then
        (if signed_angle (arc.p0 - arc.c) (P - arc.c) < 0 then
          2 * Real.pi + signed_angle (arc.p0 - arc.c) (P - arc.c)
         else signed_angle (arc.p0 - arc.c) (P - arc.c))
      else
        (if signed_angle (arc.p0 - arc.c) (P - arc.c) > 0 then
          2 * Real.pi - signed_angle (arc.p0 - arc.c) (P - arc.c)
         else signed_angle (arc.p0 - arc.c) (P - arc.c))⟩, ?_, ?_⟩
  · simp only [Line.make_offset, hpsur]
    rw [if_neg (not_le.mpr hc), ← hP]
  · rw [Line.setP0_p0]
    apply arc_point_reconstruct arc P hr hdist
    by_cases hpos : arc.da > 0
    · by_cases hneg0 : signed_angle (arc.p0 - arc.c) (P - arc.c) < 0
      · right
        rw [if_pos hpos, if_pos hneg0]
      · left
        rw [if_pos hpos, if_neg hneg0]
    · rcases hccw with h | h
      · exact absurd h hpos
      · left
        rw [if_neg hpos, if_neg (not_lt.mpr h)]

/-- Line-then-arc join (`Arc.make_offset` with a Line previous): when the
    offset circle reaches the previous line and the offset radius is
    positive, the rebuilt arc starts exactly at the join point. -/
theorem linearc_join (self : Arc) (offset : ℝ) (last : Line) (b : Bool) (d t : ℝ)
    (hpsur : last.point_sur_segment (self.offset offset).c = some (b, d, t))
    (hc : 0 < (self.offset offset).r2 - d * d)
    (hr : 0 < (self.offset offset).r) (P : V2)
    (hP : P = if t > 1
        then last.lerp t - Real.sqrt ((self.offset offset).r2 - d * d) • last.v.normalized
        else last.lerp t + Real.sqrt ((self.offset offset).r2 - d * d) • last.v.normalized) :
    ∃ res last', Arc.make_offset self offset (some (Seg.line last)) =
      some (res, some (Seg.line last')) ∧ last'.p1 = res.p0 := by
  have hdist : dotv (P - (self.offset offset).c) (P - (self.offset offset).c) =
      (self.offset offset).r * (self.offset offset).r := by
    by_cases htt : t > 1
    · have hP' : P = last.lerp t +
          ((-1) * Real.sqrt ((self.offset offset).r2 - d * d)) • last.v.normalized := by
        rw [hP, if_pos htt]
        ext <;> simp <;> ring
      rw [hP', join_point_dist _ _ _ _ _ _ hpsur hc.le _ (Or.inr rfl)]
      unfold Arc.r2 at hc ⊢
      ring
    · have hP' : P = last.lerp t +
          (1 * Real.sqrt ((self.offset offset).r2 - d * d)) • last.v.normalized := by
        rw [hP, if_neg htt]
        ext <;> simp <;> ring
      rw [hP', join_point_dist _ _ _ _ _ _ hpsur hc.le _ (Or.inl rfl)]
      unfold Arc.r2 at hc ⊢
      ring
  refine ⟨⟨(self.offset offset).c, (self.offset offset).r,
      atan2 (P - (self.offset offset).c).y (P - (self.offset offset).c).x,
      if self.da > 0 then
        (if signed_angle (P - (self.offset offset).c)
            ((self.offset offset).p1 - (self.offset offset).c) < 0 then
          2 * Real.pi + signed_angle (P - (self.offset offset).c)
            ((self.offset offset).p1 - (self.offset offset).c)
         else signed_angle (P - (self.offset offset).c)
            ((self.offset offset).p1 - (self.offset offset).c))
      else
        (if signed_angle (P - (self.offset offset).c)
            ((self.offset offset).p1 - (self.offset offset).c) > 0 then
          2 * Real.pi - signed_angle (P - (self.offset offset).c)
            ((self.offset offset).p1 - (self.offset offset).c)
         else signed_angle (P - (self.offset offset).c)
            ((self.offset offset).p1 - (self.offset offset).c))⟩,
    last.setP1 P, ?_, ?_⟩
  · simp only [Arc.make_offset, hpsur]
    rw [if_neg (not_le.mpr hc), ← hP]
  · rw [Line.setP1_p1]
    rw [arc_start_reconstruct _ _ _ _ hr hdist, V2.add_sub_cancel]

/-! ### Concrete evaluation helpers -/

theorem len01 : V2.len ⟨0, 1⟩ = 1 := by
  unfold V2.len
  norm_num

theorem norm01 : V2.normalized ⟨0, 1⟩ = ⟨0, 1⟩ := by
  unfold V2.normalized
  rw [len01]
  norm_num

theorem len10 : V2.len ⟨1, 0⟩ = 1 := by
  unfold V2.len
  norm_num

theorem norm10 : V2.normalized ⟨1, 0⟩ = ⟨1, 0⟩ := by
  unfold V2.normalized
  rw [len10]
  norm_num

theorem psur_ex1 :
    Line.point_sur_segment ⟨⟨-(1/2), -5⟩, ⟨0, 1⟩⟩ ⟨0, 0⟩ =
      some (false, -(1/2), 5) := by
  unfold Line.point_sur_segment Line.length
  rw [len01]
  norm_num [dotv]

theorem sqrt34 : Real.sqrt (3/4) = Real.sqrt 3 / 2 := by
  have h : (3/4 : ℝ) = (Real.sqrt 3 / 2) ^ 2 := by
    rw [div_pow, Real.sq_sqrt] <;> norm_num
  rw [h, Real.sqrt_sq (by positivity)]

theorem cos_five_pi_div_six : Real.cos (5 * Real.pi / 6) = -(Real.sqrt 3 / 2) := by
  have h : (5 * Real.pi / 6 : ℝ) = Real.pi - Real.pi / 6 := by ring
  rw [h, Real.cos_pi_sub, Real.cos_pi_div_six]

theorem sin_five_pi_div_six : Real.sin (5 * Real.pi / 6) = 1 / 2 := by
  have h : (5 * Real.pi / 6 : ℝ) = Real.pi - Real.pi / 6 := by ring
  rw [h, Real.sin_pi_sub, Real.sin_pi_div_six]

theorem sa_ex1 :
    signed_angle ⟨0, 1⟩ ⟨-(1/2), -(Real.sqrt 3 / 2)⟩ = 5 * Real.pi / 6 := by
  have h1 : signed_angle ⟨0, 1⟩ ⟨-(1/2), -(Real.sqrt 3 / 2)⟩ =
      Complex.arg ⟨-(Real.sqrt 3 / 2), 1/2⟩ := by
    unfold signed_angle atan2
    congr 1
    apply Complex.ext <;> norm_num
  rw [h1]
  have harg : (⟨-(Real.sqrt 3 / 2), 1/2⟩ : ℂ) =
      Complex.cos ((5 * Real.pi / 6 : ℝ) : ℂ) +
        Complex.sin ((5 * Real.pi / 6 : ℝ) : ℂ) * Complex.I := by
    rw [← Complex.ofReal_cos, ← Complex.ofReal_sin, cos_five_pi_div_six,
      sin_five_pi_div_six]
    apply Complex.ext <;> simp
  rw [harg]
  apply Complex.arg_cos_add_sin_mul_I
  constructor
  · nlinarith [Real.pi_pos]
  · nlinarith [Real.pi_pos]

theorem off0_ex1 :
    Line.offset ⟨⟨-(1/2), -5⟩, ⟨0, 1⟩⟩ 0 = ⟨⟨-(1/2), -5⟩, ⟨0, 1⟩⟩ := by
  unfold Line.offset
  ext <;> simp

theorem arcp0_ex1 :
    Arc.p0 ⟨⟨0, 0⟩, 1, Real.pi / 2, -(Real.pi / 2)⟩ = ⟨0, 1⟩ := by
  unfold Arc.p0 Arc.lerp
  ext <;> simp

/-- Full evaluation of the broken clockwise arc-then-line join used as the
    counterexample for the shared-endpoint claim and the winding claim. -/
theorem cw_join_eval :
    Line.make_offset ⟨⟨-(1/2), -5⟩, ⟨0, 1⟩⟩ 0
        (some (Seg.arc ⟨⟨0, 0⟩, 1, Real.pi / 2, -(Real.pi / 2)⟩)) =
      some (⟨⟨-(1/2), -(Real.sqrt 3 / 2)⟩, ⟨0, Real.sqrt 3 / 2 - 4⟩⟩,
            some (Seg.arc ⟨⟨0, 0⟩, 1, Real.pi / 2, 7 * Real.pi / 6⟩)) := by
  have hoff := off0_ex1
  have hp0arc := arcp0_ex1
  have hP : Line.lerp ⟨⟨-(1/2), -5⟩, ⟨0, 1⟩⟩ 5 -
      Real.sqrt (1 * 1 - -(1/2) * -(1/2)) • V2.normalized ⟨0, 1⟩ =
      (⟨-(1/2), -(Real.sqrt 3 / 2)⟩ : V2) := by
    have h34 : (1 * 1 - -(1/2) * -(1/2) : ℝ) = 3/4 := by norm_num
    rw [h34, sqrt34, norm01]
    unfold Line.lerp
    ext <;> simp <;> ring
  simp only [Line.make_offset, hoff, psur_ex1]
  rw [if_neg (by norm_num : ¬((1:ℝ) * 1 - -(1/2) * -(1/2) ≤ 0))]
  rw [if_pos (by norm_num : (5:ℝ) > 0)]
  rw [hP, hp0arc]
  have hsub : (⟨0, 1⟩ : V2) - (⟨0, 0⟩ : V2) = ⟨0, 1⟩ := by ext <;> simp
  have hsub2 : (⟨-(1/2), -(Real.sqrt 3 / 2)⟩ : V2) - (⟨0, 0⟩ : V2) =
      ⟨-(1/2), -(Real.sqrt 3 / 2)⟩ := by ext <;> simp
  rw [hsub, hsub2, sa_ex1]
  rw [if_neg (by nlinarith [Real.pi_pos] : ¬(-(Real.pi / 2) > (0:ℝ)))]
  rw [if_pos (by nlinarith [Real.pi_pos] : 5 * Real.pi / 6 > (0:ℝ))]
  unfold Line.setP0 Line.p1
  norm_num
  constructor
  · ext <;> simp <;> ring
  · ring

/-! ### Claim theorems -/

/-- Claim C1, amended: after a successful (non-fallback) `make_offset` join,
    `previous.p1 = current.p0` holds for every line/line join and every
    line-then-arc join (with positive offset radius); for arc-then-line joins
    it holds when the previous arc is counter-clockwise or the raw signed
    angle to the join point is nonpositive (in the remaining clockwise case
    the source's `2*pi - da` winding correction moves the endpoint away, see
    the counterexample). -/
theorem C1_join_shared_endpoint_amended :
    (∀ (self last : Line) (offset d t u : ℝ),
      d = dotv last.v (self.offset offset).cross_z → d ≠ 0 →
      t = dotv (self.offset offset).cross_z ((self.offset offset).p - last.p) / d →
      u = dotv last.cross_z ((self.offset offset).p - last.p) / d →
      ¬ (u > 1 ∨ t < 0) →
      ∃ res last', Line.make_offset self offset (some (Seg.line last)) =
        some (res, some (Seg.line last')) ∧ last'.p1 = res.p0) ∧
    (∀ (self : Line) (offset : ℝ) (arc : Arc) (b : Bool) (d t : ℝ) (P : V2),
      (self.offset offset).point_sur_segment arc.c = some (b, d, t) →
      0 < arc.r * arc.r - d * d →
      P = (if t > 0
        then (self.offset offset).lerp t -
          Real.sqrt (arc.r * arc.r - d * d) • (self.offset offset).v.normalized
        else (self.offset offset).lerp t +
          Real.sqrt (arc.r * arc.r - d * d) • (self.offset offset).v.normalized) →
      (0 < arc.da ∨ signed_angle (arc.p0 - arc.c) (P - arc.c) ≤ 0) →
      ∃ res arcr, Line.make_offset self offset (some (Seg.arc arc)) =
        some (res, some (Seg.arc arcr)) ∧ arcr.p1 = res.p0) ∧
    (∀ (self : Arc) (offset : ℝ) (last : Line) (b : Bool) (d t : ℝ) (P : V2),
      last.point_sur_segment (self.offset offset).c = some (b, d, t) →
      0 < (self.offset offset).r2 - d * d →
      0 < (self.offset offset).r →
      P = (if t > 1
        then last.lerp t - Real.sqrt ((self.offset offset).r2 - d * d) • last.v.normalized
        else last.lerp t + Real.sqrt ((self.offset offset).r2 - d * d) • last.v.normalized) →
      ∃ res last', Arc.make_offset self offset (some (Seg.line last)) =
        some (res, some (Seg.line last')) ∧ last'.p1 = res.p0) := by
  refine ⟨?_, ?_, ?_⟩
  · intro self last offset d t u hd hd0 ht hu hrej
    refine ⟨(self.offset offset).setP0 (last.lerp t),
      last.setP1 (last.lerp t),
      lineline_join self last offset d t u hd hd0 ht hu hrej, ?_⟩
    rw [Line.setP1_p1, Line.setP0_p0]
  · intro self offset arc b d t P hpsur hc hP hccw
    exact arcline_join self offset arc b d t hpsur hc P hP hccw
  · intro self offset last b d t P hpsur hc hr hP
    exact linearc_join self offset last b d t hpsur hc hr P hP

/-- Witness: the shared-endpoint theorem applied to one concrete successful
    join of each kind (line/line L-corner, counter-clockwise arc then line,
    line then arc). -/
theorem C1_join_witness :
    (∃ res last', Line.make_offset ⟨⟨1, 0⟩, ⟨0, 1⟩⟩ 1
        (some (Seg.line ⟨⟨0, -1⟩, ⟨1, 0⟩⟩)) =
        some (res, some (Seg.line last')) ∧ last'.p1 = res.p0) ∧
    (∃ res arcr, Line.make_offset ⟨⟨-(1/2), -5⟩, ⟨0, 1⟩⟩ 0
        (some (Seg.arc ⟨⟨0, 0⟩, 1, Real.pi / 2, Real.pi / 2⟩)) =
        some (res, some (Seg.arc arcr)) ∧ arcr.p1 = res.p0) ∧
    (∃ res last', Arc.make_offset ⟨⟨0, 0⟩, 1, 0, Real.pi / 2⟩ 0
        (some (Seg.line ⟨⟨-(1/2), -5⟩, ⟨0, 1⟩⟩)) =
        some (res, some (Seg.line last')) ∧ last'.p1 = res.p0) := by
  refine ⟨?_, ?_, ?_⟩
  · apply C1_join_shared_endpoint_amended.1 ⟨⟨1, 0⟩, ⟨0, 1⟩⟩ ⟨⟨0, -1⟩, ⟨1, 0⟩⟩ 1 1 2 (-1)
    · norm_num [Line.offset, Line.cross_z, V2.normalized, V2.len, dotv]
    · norm_num
    · norm_num [Line.offset, Line.cross_z, V2.normalized, V2.len, dotv]
    · norm_num [Line.offset, Line.cross_z, V2.normalized, V2.len, dotv]
    · norm_num
  · apply C1_join_shared_endpoint_amended.2.1 ⟨⟨-(1/2), -5⟩, ⟨0, 1⟩⟩ 0
      ⟨⟨0, 0⟩, 1, Real.pi / 2, Real.pi / 2⟩ false (-(1/2)) 5 _
    · rw [off0_ex1]
      exact psur_ex1
    · norm_num
    · rfl
    · left
      positivity
  · apply C1_join_shared_endpoint_amended.2.2 ⟨⟨0, 0⟩, 1, 0, Real.pi / 2⟩ 0
      ⟨⟨-(1/2), -5⟩, ⟨0, 1⟩⟩ false (-(1/2)) 5 _
    · have hoffarc : Arc.offset ⟨⟨0, 0⟩, 1, 0, Real.pi / 2⟩ 0 =
          ⟨⟨0, 0⟩, 1, 0, Real.pi / 2⟩ := by
        unfold Arc.offset
        rw [if_pos (by positivity : (0:ℝ) < Real.pi / 2)]
        ext <;> norm_num
      rw [hoffarc]
      exact psur_ex1
    · have hoffarc : Arc.offset ⟨⟨0, 0⟩, 1, 0, Real.pi / 2⟩ 0 =
          ⟨⟨0, 0⟩, 1, 0, Real.pi / 2⟩ := by
        unfold Arc.offset
        rw [if_pos (by positivity : (0:ℝ) < Real.pi / 2)]
        ext <;> norm_num
      rw [hoffarc]
      norm_num [Arc.r2]
    · have hoffarc : Arc.offset ⟨⟨0, 0⟩, 1, 0, Real.pi / 2⟩ 0 =
          ⟨⟨0, 0⟩, 1, 0, Real.pi / 2⟩ := by
        unfold Arc.offset
        rw [if_pos (by positivity : (0:ℝ) < Real.pi / 2)]
        ext <;> norm_num
      rw [hoffarc]
      norm_num
    · rfl

/-- Counterexample to claim C1 as stated: a successful (circle reaches the
    line, `c = 3/4 > 0`) arc-then-line join with a clockwise previous arc
    after which `previous.p1` differs from the returned line's `p0`. -/
theorem C1_join_counterexample :
    Line.make_offset ⟨⟨-(1/2), -5⟩, ⟨0, 1⟩⟩ 0
        (some (Seg.arc ⟨⟨0, 0⟩, 1, Real.pi / 2, -(Real.pi / 2)⟩)) =
      some (⟨⟨-(1/2), -(Real.sqrt 3 / 2)⟩, ⟨0, Real.sqrt 3 / 2 - 4⟩⟩,
            some (Seg.arc ⟨⟨0, 0⟩, 1, Real.pi / 2, 7 * Real.pi / 6⟩)) ∧
    Line.point_sur_segment (Line.offset ⟨⟨-(1/2), -5⟩, ⟨0, 1⟩⟩ 0) ⟨0, 0⟩ =
      some (false, -(1/2), 5) ∧
    (0:ℝ) < 1 * 1 - -(1/2) * -(1/2) ∧
    Arc.p1 ⟨⟨0, 0⟩, 1, Real.pi / 2, 7 * Real.pi / 6⟩ ≠
      Line.p0 ⟨⟨-(1/2), -(Real.sqrt 3 / 2)⟩, ⟨0, Real.sqrt 3 / 2 - 4⟩⟩ := by
  refine ⟨cw_join_eval, ?_, by norm_num, ?_⟩
  · rw [off0_ex1]
    exact psur_ex1
  · have harg : (Real.pi / 2 + 1 * (7 * Real.pi / 6)) =
        -(Real.pi / 3) + 2 * Real.pi := by ring
    have hcos : Real.cos (Real.pi / 2 + 1 * (7 * Real.pi / 6)) = 1/2 := by
      rw [harg, Real.cos_add_two_pi, Real.cos_neg, Real.cos_pi_div_three]
    have hsin : Real.sin (Real.pi / 2 + 1 * (7 * Real.pi / 6)) =
        -(Real.sqrt 3 / 2) := by
      rw [harg, Real.sin_add_two_pi, Real.sin_neg, Real.sin_pi_div_three]
    have hp1 : Arc.p1 ⟨⟨0, 0⟩, 1, Real.pi / 2, 7 * Real.pi / 6⟩ =
        ⟨1/2, -(Real.sqrt 3 / 2)⟩ := by
      unfold Arc.p1 Arc.lerp
      simp only [hcos, hsin]
      ext <;> norm_num
    rw [hp1]
    unfold Line.p0
    intro h
    have hx := congrArg V2.x h
    norm_num at hx

/-- Claim C4: the winding correction in the mixed join branches. The source
    uses `2*pi - da` (not `da - 2*pi`) when a clockwise arc meets a positive
    raw angle, so the stored sweep `7*pi/6` is positive although the arc is
    clockwise, and is not congruent to the raw angle `5*pi/6` modulo `2*pi`. -/
theorem C4_winding_correction_bug :
    Line.make_offset ⟨⟨-(1/2), -5⟩, ⟨0, 1⟩⟩ 0
        (some (Seg.arc ⟨⟨0, 0⟩, 1, Real.pi / 2, -(Real.pi / 2)⟩)) =
      some (⟨⟨-(1/2), -(Real.sqrt 3 / 2)⟩, ⟨0, Real.sqrt 3 / 2 - 4⟩⟩,
            some (Seg.arc ⟨⟨0, 0⟩, 1, Real.pi / 2, 7 * Real.pi / 6⟩)) ∧
    signed_angle (Arc.p0 ⟨⟨0, 0⟩, 1, Real.pi / 2, -(Real.pi / 2)⟩ - ⟨0, 0⟩)
        ((⟨-(1/2), -(Real.sqrt 3 / 2)⟩ : V2) - ⟨0, 0⟩) = 5 * Real.pi / 6 ∧
    -(Real.pi / 2) < (0:ℝ) ∧
    (0:ℝ) < 7 * Real.pi / 6 ∧
    ∀ k : ℤ, 7 * Real.pi / 6 ≠ 5 * Real.pi / 6 + 2 * Real.pi * k := by
  refine ⟨cw_join_eval, ?_, neg_lt_zero.mpr (by positivity), by positivity, ?_⟩
  · rw [arcp0_ex1]
    have h1 : (⟨0, 1⟩ : V2) - (⟨0, 0⟩ : V2) = ⟨0, 1⟩ := by ext <;> simp
    have h2 : (⟨-(1/2), -(Real.sqrt 3 / 2)⟩ : V2) - (⟨0, 0⟩ : V2) =
        ⟨-(1/2), -(Real.sqrt 3 / 2)⟩ := by ext <;> simp
    rw [h1, h2]
    exact sa_ex1
  · intro k h
    have hne := Real.pi_ne_zero
    have hk : (2 * (k:ℝ)) * Real.pi = (1/3) * Real.pi := by linarith
    have hk2 : 2 * (k:ℝ) = 1/3 := mul_right_cancel₀ hne hk
    rcases le_or_lt k 0 with h0 | h0
    · have hc : (k:ℝ) ≤ 0 := by exact_mod_cast h0
      linarith
    · have h1 : (1:ℤ) ≤ k := h0
      have hc : (1:ℝ) ≤ (k:ℝ) := by exact_mod_cast h1
      linarith

theorem off1_ex2 : Line.offset ⟨⟨1, 0⟩, ⟨0, 1⟩⟩ 1 = ⟨⟨2, 0⟩, ⟨0, 1⟩⟩ := by
  unfold Line.offset Line.cross_z
  rw [show V2.normalized ⟨1, -0⟩ = ⟨1, 0⟩ by
    unfold V2.normalized V2.len
    norm_num]
  ext <;> norm_num

theorem offr_ex2 : Line.offset ⟨⟨0, 0⟩, ⟨1, 0⟩⟩ 1 = ⟨⟨0, -1⟩, ⟨1, 0⟩⟩ := by
  unfold Line.offset Line.cross_z
  rw [show V2.normalized ⟨0, -1⟩ = ⟨0, -1⟩ by
    unfold V2.normalized V2.len
    norm_num]
  ext <;> norm_num

/-- Full evaluation of the right-offset L-corner join: the two offset lines
    `y = -1` and `x = 2` meet at `(2, -1)`. -/
theorem lcorner_eval :
    Line.make_offset ⟨⟨1, 0⟩, ⟨0, 1⟩⟩ 1 (some (Seg.line ⟨⟨0, -1⟩, ⟨1, 0⟩⟩)) =
      some (⟨⟨2, -1⟩, ⟨0, 2⟩⟩, some (Seg.line ⟨⟨0, -1⟩, ⟨2, 0⟩⟩)) := by
  rw [lineline_join ⟨⟨1, 0⟩, ⟨0, 1⟩⟩ ⟨⟨0, -1⟩, ⟨1, 0⟩⟩ 1 1 2 (-1)
    (by norm_num [Line.offset, Line.cross_z, V2.normalized, V2.len, dotv])
    (by norm_num)
    (by norm_num [Line.offset, Line.cross_z, V2.normalized, V2.len, dotv])
    (by norm_num [Line.offset, Line.cross_z, V2.normalized, V2.len, dotv])
    (by norm_num)]
  have hlerp : Line.lerp ⟨⟨0, -1⟩, ⟨1, 0⟩⟩ 2 = ⟨2, -1⟩ := by
    unfold Line.lerp
    ext <;> norm_num
  rw [off1_ex2, hlerp]
  unfold Line.setP0 Line.setP1 Line.p1
  norm_num
  constructor
  · ext <;> norm_num
  · ext <;> norm_num

/-- Claim C3, amended: for non-parallel lines the source rejects the join
    exactly when `u > 1` — `u` being the intersection parameter on the NEW
    offset line (beyond its end) — or `t < 0` — `t` being the parameter on
    the PREVIOUS line (before its start); otherwise it mutates previous.p1
    and the returned line's p0 to the shared intersection point
    `last.lerp t`.  (The claim as stated swaps the roles of the two
    parameters.) -/
theorem C3_lineline_reject_amended :
    ∀ (self last : Line) (offset d t u : ℝ),
      d = dotv last.v (self.offset offset).cross_z → d ≠ 0 →
      t = dotv (self.offset offset).cross_z ((self.offset offset).p - last.p) / d →
      u = dotv last.cross_z ((self.offset offset).p - last.p) / d →
      ((u > 1 ∨ t < 0) →
        Line.make_offset self offset (some (Seg.line last)) =
          some (self.offset offset, some (Seg.line last))) ∧
      (¬ (u > 1 ∨ t < 0) →
        Line.make_offset self offset (some (Seg.line last)) =
          some ((self.offset offset).setP0 (last.lerp t),
                some (Seg.line (last.setP1 (last.lerp t))))) := by
  intro self last offset d t u hd hd0 ht hu
  constructor
  · intro hrej
    subst hd
    subst ht
    subst hu
    simp only [Line.make_offset]
    rw [if_neg hd0, if_pos hrej]
  · intro hacc
    exact lineline_join self last offset d t u hd hd0 ht hu hacc

/-- Witness: the amended rejection rule applied to the concrete L-corner,
    whose intersection parameters are `u = -1` on the new line and `t = 2`
    on the previous line, so the join is accepted. -/
theorem C3_lineline_reject_witness :
    Line.make_offset ⟨⟨1, 0⟩, ⟨0, 1⟩⟩ 1 (some (Seg.line ⟨⟨0, -1⟩, ⟨1, 0⟩⟩)) =
      some ((Line.offset ⟨⟨1, 0⟩, ⟨0, 1⟩⟩ 1).setP0 (Line.lerp ⟨⟨0, -1⟩, ⟨1, 0⟩⟩ 2),
            some (Seg.line ((⟨⟨0, -1⟩, ⟨1, 0⟩⟩ : Line).setP1
              (Line.lerp ⟨⟨0, -1⟩, ⟨1, 0⟩⟩ 2)))) :=
  (C3_lineline_reject_amended ⟨⟨1, 0⟩, ⟨0, 1⟩⟩ ⟨⟨0, -1⟩, ⟨1, 0⟩⟩ 1 1 2 (-1)
    (by norm_num [Line.offset, Line.cross_z, V2.normalized, V2.len, dotv])
    (by norm_num)
    (by norm_num [Line.offset, Line.cross_z, V2.normalized, V2.len, dotv])
    (by norm_num [Line.offset, Line.cross_z, V2.normalized, V2.len, dotv])).2
    (by norm_num)

/-- Counterexample to claim C3 as stated: in the L-corner the intersection
    lies at parameter 2 > 1 on the PREVIOUS line, so the claim predicts the
    join is rejected with previous unmutated; the source joins and mutates
    previous.p1 from (1,-1) to (2,-1). -/
theorem C3_lineline_reject_counterexample :
    Line.make_offset ⟨⟨1, 0⟩, ⟨0, 1⟩⟩ 1 (some (Seg.line ⟨⟨0, -1⟩, ⟨1, 0⟩⟩)) =
      some (⟨⟨2, -1⟩, ⟨0, 2⟩⟩, some (Seg.line ⟨⟨0, -1⟩, ⟨2, 0⟩⟩)) ∧
    Line.lerp ⟨⟨0, -1⟩, ⟨1, 0⟩⟩ 2 = ⟨2, -1⟩ ∧
    (2:ℝ) > 1 ∧
    Line.p1 ⟨⟨0, -1⟩, ⟨2, 0⟩⟩ ≠ Line.p1 ⟨⟨0, -1⟩, ⟨1, 0⟩⟩ ∧
    (⟨⟨2, -1⟩, ⟨0, 2⟩⟩ : Line) ≠ Line.offset ⟨⟨1, 0⟩, ⟨0, 1⟩⟩ 1 := by
  refine ⟨lcorner_eval, by unfold Line.lerp; ext <;> norm_num, by norm_num, ?_, ?_⟩
  · unfold Line.p1
    intro h
    have hx := congrArg V2.x h
    norm_num at hx
  · intro h
    rw [off1_ex2] at h
    have hy := congrArg (fun l : Line => l.p.y) h
    norm_num at hy

/-- Claim C5, amended: the L-corner `Line(p=(0,0),v=(1,0))` and
    `Line(p=(1,0),v=(0,1))`, each offset by 1 to the right and joined by
    make_offset, meet at `(2,-1)` (not `(1,1)`), and afterwards
    `previous.p1 = joined.p0 = (2,-1)`. -/
theorem C5_lcorner_amended :
    Line.make_offset ⟨⟨0, 0⟩, ⟨1, 0⟩⟩ 1 none = some (⟨⟨0, -1⟩, ⟨1, 0⟩⟩, none) ∧
    Line.make_offset ⟨⟨1, 0⟩, ⟨0, 1⟩⟩ 1 (some (Seg.line ⟨⟨0, -1⟩, ⟨1, 0⟩⟩)) =
      some (⟨⟨2, -1⟩, ⟨0, 2⟩⟩, some (Seg.line ⟨⟨0, -1⟩, ⟨2, 0⟩⟩)) ∧
    Line.p1 ⟨⟨0, -1⟩, ⟨2, 0⟩⟩ = ⟨2, -1⟩ ∧
    Line.p0 ⟨⟨2, -1⟩, ⟨0, 2⟩⟩ = ⟨2, -1⟩ := by
  refine ⟨?_, lcorner_eval, ?_, rfl⟩
  · simp only [Line.make_offset]
    rw [offr_ex2]
  · unfold Line.p1
    ext <;> norm_num

/-- Counterexample to claim C5 as stated: the joined L-corner meets at
    `(2,-1)`, which differs from the claimed `(1,1)`. -/
theorem C5_lcorner_counterexample :
    Line.make_offset ⟨⟨1, 0⟩, ⟨0, 1⟩⟩ 1 (some (Seg.line ⟨⟨0, -1⟩, ⟨1, 0⟩⟩)) =
      some (⟨⟨2, -1⟩, ⟨0, 2⟩⟩, some (Seg.line ⟨⟨0, -1⟩, ⟨2, 0⟩⟩)) ∧
    Line.p0 ⟨⟨2, -1⟩, ⟨0, 2⟩⟩ ≠ (⟨1, 1⟩ : V2) ∧
    Line.p1 ⟨⟨0, -1⟩, ⟨2, 0⟩⟩ ≠ (⟨1, 1⟩ : V2) := by
  refine ⟨lcorner_eval, ?_, ?_⟩
  · unfold Line.p0
    intro h
    have hx := congrArg V2.x h
    norm_num at hx
  · unfold Line.p1
    intro h
    have hx := congrArg V2.x h
    norm_num at hx

theorem arcp0_unit : Arc.p0 ⟨⟨0, 0⟩, 1, 0, Real.pi / 2⟩ = ⟨1, 0⟩ := by
  unfold Arc.p0 Arc.lerp
  ext <;> simp

theorem arcp1_unit : Arc.p1 ⟨⟨0, 0⟩, 1, 0, Real.pi / 2⟩ = ⟨0, 1⟩ := by
  unfold Arc.p1 Arc.lerp
  ext <;> simp

theorem sqrt2_mul_sqrt10 : Real.sqrt 2 * Real.sqrt 10 = 2 * Real.sqrt 5 := by
  rw [← Real.sqrt_mul (by norm_num : (0:ℝ) ≤ 2)]
  rw [show (2 * 10 : ℝ) = 2 ^ 2 * 5 by norm_num]
  rw [Real.sqrt_mul (by positivity), Real.sqrt_sq (by norm_num : (0:ℝ) ≤ 2)]

theorem sa_ex2 : signed_angle ⟨1, -1⟩ ⟨2, -1⟩ = Complex.arg ⟨3, 1⟩ := by
  unfold signed_angle atan2
  congr 1
  apply Complex.ext <;> norm_num

theorem abs31 : Complex.abs ⟨3, 1⟩ = Real.sqrt 10 := by
  rw [Complex.abs_apply, Complex.normSq_mk]
  norm_num

theorem rsm_ex2 :
    Arc.rot_scale_matrix ⟨⟨0, 0⟩, 1, 0, Real.pi / 2⟩ ⟨1, -1⟩ ⟨2, -1⟩ =
      some (Real.sqrt 10 / 2, ⟨3/2, 1/2, -(1/2), 3/2⟩) := by
  have hlu : V2.len ⟨1, -1⟩ = Real.sqrt 2 := by
    unfold V2.len
    norm_num
  have hlv : V2.len ⟨2, -1⟩ = Real.sqrt 5 := by
    unfold V2.len
    norm_num
  have hne31 : (⟨3, 1⟩ : ℂ) ≠ 0 := by
    intro h
    have := congrArg Complex.re h
    norm_num at this
  have hcosa : Real.cos (Complex.arg ⟨3, 1⟩) = 3 / Real.sqrt 10 := by
    rw [Complex.cos_arg hne31, abs31]
  have hsina : Real.sin (Complex.arg ⟨3, 1⟩) = 1 / Real.sqrt 10 := by
    rw [Complex.sin_arg, abs31]
  have h2 : Real.sqrt 2 ≠ 0 := by positivity
  have h5 : Real.sqrt 5 ≠ 0 := by positivity
  have h10 : Real.sqrt 10 ≠ 0 := by positivity
  unfold Arc.rot_scale_matrix
  rw [sa_ex2, hlu, hlv, if_neg h2, hcosa, hsina]
  simp only [Option.some.injEq, Prod.mk.injEq, M2.mk.injEq]
  have hscale : Real.sqrt 5 / Real.sqrt 2 = Real.sqrt 10 / 2 := by
    field_simp
    nlinarith [sqrt2_mul_sqrt10]
  have hca : Real.sqrt 5 / Real.sqrt 2 * (3 / Real.sqrt 10) = 3 / 2 := by
    field_simp
    nlinarith [sqrt2_mul_sqrt10]
  have hsa2 : Real.sqrt 5 / Real.sqrt 2 * (1 / Real.sqrt 10) = 1 / 2 := by
    field_simp
    nlinarith [sqrt2_mul_sqrt10]
  refine ⟨hscale, hca, hsa2, ?_, hca⟩
  rw [hsa2]

/-- Claim C2: the Arc endpoint setter at a concrete input.  `da` is indeed
    preserved, but the new `p0` misses the assigned point and the supposedly
    fixed endpoint `p1` moves: the rotation matrix rotates by the negated
    angle and the `a0` recomputation reads the property `self.p0` (built
    from the old `a0`) instead of the assigned point, contradicting the
    setter's docstring (rotate and scale arc so it intersects p0; da
    unaffected, p1 fixed). -/
theorem C2_arc_setter_bug :
    Arc.setP0 ⟨⟨0, 0⟩, 1, 0, Real.pi / 2⟩ ⟨2, 0⟩ =
      some ⟨⟨-(1/2), -(1/2)⟩, Real.sqrt 10 / 2, 0, Real.pi / 2⟩ ∧
    (Arc.mk ⟨-(1/2), -(1/2)⟩ (Real.sqrt 10 / 2) 0 (Real.pi / 2)).da =
      (Arc.mk ⟨0, 0⟩ 1 0 (Real.pi / 2)).da ∧
    Arc.p1 ⟨⟨-(1/2), -(1/2)⟩, Real.sqrt 10 / 2, 0, Real.pi / 2⟩ ≠
      Arc.p1 ⟨⟨0, 0⟩, 1, 0, Real.pi / 2⟩ ∧
    Arc.p0 ⟨⟨-(1/2), -(1/2)⟩, Real.sqrt 10 / 2, 0, Real.pi / 2⟩ ≠ (⟨2, 0⟩ : V2) := by
  refine ⟨?_, rfl, ?_, ?_⟩
  · have hc : (⟨0, 1⟩ : V2) + M2.mulVec ⟨3/2, 1/2, -(1/2), 3/2⟩
        ((⟨0, 0⟩ : V2) - ⟨0, 1⟩) = ⟨-(1/2), -(1/2)⟩ := by
      unfold M2.mulVec
      ext <;> norm_num
    have hdp : Arc.p0 ⟨⟨-(1/2), -(1/2)⟩, 1 * (Real.sqrt 10 / 2), 0, Real.pi / 2⟩ -
        (⟨-(1/2), -(1/2)⟩ : V2) = ⟨1 * (Real.sqrt 10 / 2), 0⟩ := by
      unfold Arc.p0 Arc.lerp
      ext <;> simp
    have hatan : atan2 (0:ℝ) (1 * (Real.sqrt 10 / 2)) = 0 := by
      unfold atan2
      rw [show (⟨1 * (Real.sqrt 10 / 2), 0⟩ : ℂ) = ((1 * (Real.sqrt 10 / 2) : ℝ) : ℂ) from rfl]
      exact Complex.arg_ofReal_of_nonneg (by positivity)
    unfold Arc.setP0
    rw [arcp0_unit, arcp1_unit]
    rw [show (⟨1, 0⟩ : V2) - ⟨0, 1⟩ = ⟨1, -1⟩ by ext <;> norm_num]
    rw [show (⟨2, 0⟩ : V2) - ⟨0, 1⟩ = ⟨2, -1⟩ by ext <;> norm_num]
    simp only [rsm_ex2, hc, hdp, hatan, Option.some.injEq, Arc.mk.injEq]
    norm_num
  · intro h
    have hy := congrArg V2.y h
    unfold Arc.p1 Arc.lerp at hy
    simp at hy
    nlinarith [Real.sq_sqrt (by norm_num : (0:ℝ) ≤ 10), Real.sqrt_nonneg 10]
  · intro h
    have hy := congrArg V2.y h
    unfold Arc.p0 Arc.lerp at hy
    simp at hy

/-- Both quadratic-formula roots satisfy the quadratic. -/
theorem quad_root (A B C dd : ℝ) (hA : A ≠ 0) (hdd : dd = B * B - 4 * A * C)
    (h0 : 0 ≤ dd) (s : ℝ) (hs : s = 1 ∨ s = -1) :
    A * ((-B + s * Real.sqrt dd) / (2 * A)) ^ 2 +
      B * ((-B + s * Real.sqrt dd) / (2 * A)) + C = 0 := by
  have hw : (s * Real.sqrt dd) ^ 2 = dd := by
    have h1 : s ^ 2 = 1 := by rcases hs with hs | hs <;> rw [hs] <;> norm_num
    rw [mul_pow, h1, one_mul, Real.sq_sqrt h0]
  have hexp : A * ((-B + s * Real.sqrt dd) / (2 * A)) ^ 2 +
      B * ((-B + s * Real.sqrt dd) / (2 * A)) + C =
      ((s * Real.sqrt dd) ^ 2 - (B * B - 4 * A * C)) / (4 * A) := by
    field_simp
    ring
  rw [hexp, hw, ← hdd, sub_self, zero_div]

theorem sqrt100 : Real.sqrt 100 = 10 := by
  rw [show (100:ℝ) = 10 ^ 2 by norm_num, Real.sqrt_sq (by norm_num : (0:ℝ) ≤ 10)]

/-- Claim C6: with a non-degenerate direction and strictly positive
    discriminant, `Circle.intersect` returns found=True with the root of
    smaller absolute value (root closest to the line's parametric origin)
    and the point `line.lerp t`; concretely,
    `Circle(c=(0,0), r=5).intersect(Line(p=(-10,0), v=(1,0)))` returns
    found=True at `(-5, 0)` with `t = 5`. -/
theorem C6_circle_intersect_tiebreak :
    (∀ (ci : Circle) (line : Line) (A B C dd : ℝ),
      A = dotv line.v line.v →
      B = 2 * dotv (line.p - ci.c) line.v →
      C = dotv (line.p - ci.c) (line.p - ci.c) - ci.r2 →
      dd = B * B - 4 * A * C →
      ¬ (A ≤ 0.0000001) → 0 < dd →
      ∃ t : ℝ, Circle.intersect ci line = some (true, line.lerp t, t) ∧
        (t = (-B + Real.sqrt dd) / (2 * A) ∨ t = (-B - Real.sqrt dd) / (2 * A)) ∧
        |t| ≤ |(-B + Real.sqrt dd) / (2 * A)| ∧
        |t| ≤ |(-B - Real.sqrt dd) / (2 * A)| ∧
        A * t ^ 2 + B * t + C = 0) ∧
    Circle.intersect ⟨⟨0, 0⟩, 5⟩ ⟨⟨-10, 0⟩, ⟨1, 0⟩⟩ = some (true, ⟨-5, 0⟩, 5) := by
  constructor
  · intro ci line A B C dd hA hB hC hdd hA7 hdd0
    have hAne : A ≠ 0 := by
      intro h
      rw [h] at hA7
      exact hA7 (by norm_num)
    have hq1 : A * ((-B + Real.sqrt dd) / (2 * A)) ^ 2 +
        B * ((-B + Real.sqrt dd) / (2 * A)) + C = 0 := by
      have := quad_root A B C dd hAne hdd hdd0.le 1 (Or.inl rfl)
      rw [one_mul] at this
      exact this
    have hq2 : A * ((-B - Real.sqrt dd) / (2 * A)) ^ 2 +
        B * ((-B - Real.sqrt dd) / (2 * A)) + C = 0 := by
      have := quad_root A B C dd hAne hdd hdd0.le (-1) (Or.inr rfl)
      rw [neg_one_mul, ← sub_eq_add_neg] at this
      exact this
    simp only [Circle.intersect]
    rw [← hA, ← hB, ← hC, ← hdd]
    rw [if_neg (by rw [not_or]; exact ⟨hA7, not_lt.mpr hdd0.le⟩ :
      ¬ (A ≤ 0.0000001 ∨ dd < 0))]
    rw [if_neg hdd0.ne']
    by_cases habs : |(-B + Real.sqrt dd) / (2 * A)| < |(-B - Real.sqrt dd) / (2 * A)|
    · rw [if_pos habs]
      exact ⟨(-B + Real.sqrt dd) / (2 * A), rfl, Or.inl rfl, le_refl _, habs.le, hq1⟩
    · rw [if_neg habs]
      exact ⟨(-B - Real.sqrt dd) / (2 * A), rfl, Or.inr rfl, not_lt.1 habs,
        le_refl _, hq2⟩
  · simp only [Circle.intersect]
    norm_num [dotv, Circle.r2, sqrt100, Line.lerp]
    ext <;> norm_num

/-- Witness: the tie-break theorem applied at the concrete circle and line
    of the spec's scenario (A = 1, B = -20, C = 75, discriminant 100). -/
theorem C6_circle_intersect_tiebreak_witness :
    ∃ t : ℝ, Circle.intersect ⟨⟨0, 0⟩, 5⟩ ⟨⟨-10, 0⟩, ⟨1, 0⟩⟩ =
        some (true, Line.lerp ⟨⟨-10, 0⟩, ⟨1, 0⟩⟩ t, t) ∧
      (t = (-(-20) + Real.sqrt 100) / (2 * 1) ∨
       t = (-(-20) - Real.sqrt 100) / (2 * 1)) ∧
      |t| ≤ |(-(-20) + Real.sqrt 100) / (2 * 1)| ∧
      |t| ≤ |(-(-20) - Real.sqrt 100) / (2 * 1)| ∧
      1 * t ^ 2 + (-20) * t + 75 = 0 :=
  C6_circle_intersect_tiebreak.1 ⟨⟨0, 0⟩, 5⟩ ⟨⟨-10, 0⟩, ⟨1, 0⟩⟩ 1 (-20) 75 100
    (by norm_num [dotv]) (by norm_num [dotv]) (by norm_num [dotv, Circle.r2])
    (by norm_num) (by norm_num) (by norm_num)

/-- Claim C8: the tangency branch of `Circle.intersect`.  The source
    computes `t = -B / 2 * A`, i.e. `(-B/2)*A`, not the root `-B/(2A)` of the
    quadratic: with `A = 4, B = -8, C = 4` (discriminant exactly 0) it
    returns `t = 16` and the point `(30, 1)`, which is not on the circle;
    the true tangency root is `t = 1` with the point `(0, 1)`. -/
theorem C8_tangency_bug :
    Circle.intersect ⟨⟨0, 0⟩, 1⟩ ⟨⟨-2, 1⟩, ⟨2, 0⟩⟩ = some (true, ⟨30, 1⟩, 16) ∧
    dotv ((⟨30, 1⟩ : V2) - ⟨0, 0⟩) ((⟨30, 1⟩ : V2) - ⟨0, 0⟩) ≠
      Circle.r2 ⟨⟨0, 0⟩, 1⟩ ∧
    (4:ℝ) * 16 ^ 2 + (-8) * 16 + 4 ≠ 0 ∧
    (4:ℝ) * 1 ^ 2 + (-8) * 1 + 4 = 0 ∧
    Line.lerp ⟨⟨-2, 1⟩, ⟨2, 0⟩⟩ 1 = ⟨0, 1⟩ ∧
    dotv ((⟨0, 1⟩ : V2) - ⟨0, 0⟩) ((⟨0, 1⟩ : V2) - ⟨0, 0⟩) =
      Circle.r2 ⟨⟨0, 0⟩, 1⟩ := by
  refine ⟨?_, by norm_num [dotv, Circle.r2], by norm_num, by norm_num, ?_,
    by norm_num [dotv, Circle.r2]⟩
  · simp only [Circle.intersect]
    norm_num [dotv, Circle.r2, Line.lerp]
    ext <;> norm_num
  · unfold Line.lerp
    ext <;> norm_num

/-- Claim C9: offset round-trip.  A line offset by `d` then `-d` is restored
    exactly (both translations use the same normalized cross, which depends
    only on `v`); an arc's `offset` preserves `c, a0, da` and the radius
    round-trips exactly. -/
theorem C9_offset_roundtrip :
    (∀ (l : Line) (d : ℝ), l.v ≠ ⟨0, 0⟩ → (l.offset d).offset (-d) = l) ∧
    (∀ (a : Arc) (d : ℝ),
      ((a.offset d).offset (-d)).r = a.r ∧
      (a.offset d).c = a.c ∧ (a.offset d).a0 = a.a0 ∧ (a.offset d).da = a.da) := by
  constructor
  · intro l d _
    unfold Line.offset Line.cross_z
    ext <;> simp <;> ring
  · intro a d
    by_cases h : a.da > 0
    · refine ⟨?_, ?_, ?_, ?_⟩ <;> simp [Arc.offset, h]
    · refine ⟨?_, ?_, ?_, ?_⟩ <;> simp [Arc.offset, h]

/-- Witness: the round-trip applied to a concrete line with nonzero
    direction (the arc half of the theorem has no hypothesis). -/
theorem C9_offset_roundtrip_witness :
    Line.offset (Line.offset ⟨⟨0, 0⟩, ⟨1, 0⟩⟩ 1) (-1) = ⟨⟨0, 0⟩, ⟨1, 0⟩⟩ :=
  C9_offset_roundtrip.1 ⟨⟨0, 0⟩, ⟨1, 0⟩⟩ 1 (by
    intro h
    have hx := congrArg V2.x h
    norm_num at hx)

/-- Claim C10, amended: a zero-direction line is safe in `Line.intersect`
    (as receiver or argument, both return found=False before any division)
    and in `angle` (atan2(0,0) = 0), but `Circle.intersect` with a
    zero-direction line falls into the projection fallback whose division by
    the zero length is unguarded — a ZeroDivisionError crash in Python,
    modelled here as `none` — so the claim's `never crashes` is false for
    that entry point. -/
theorem C10_zero_line_amended :
    (∀ (q : V2) (other : Line),
      Line.intersect ⟨q, ⟨0, 0⟩⟩ other = (false, ⟨0, 0⟩, 0)) ∧
    (∀ (self : Line) (q : V2),
      Line.intersect self ⟨q, ⟨0, 0⟩⟩ = (false, ⟨0, 0⟩, 0)) ∧
    (∀ q : V2, Line.angle ⟨q, ⟨0, 0⟩⟩ = 0) ∧
    (∀ (ci : Circle) (q : V2), Circle.intersect ci ⟨q, ⟨0, 0⟩⟩ = none) := by
  refine ⟨?_, ?_, ?_, ?_⟩
  · intro q other
    simp [Line.intersect, dotv]
  · intro self q
    simp [Line.intersect, Line.cross_z, dotv]
  · intro q
    unfold Line.angle atan2
    rw [show (⟨(⟨0, 0⟩ : V2).x, (⟨0, 0⟩ : V2).y⟩ : ℂ) = 0 by
      apply Complex.ext <;> simp]
    exact Complex.arg_zero
  · intro ci q
    simp only [Circle.intersect]
    rw [if_pos (Or.inl (by norm_num [dotv] : dotv (⟨0, 0⟩ : V2) ⟨0, 0⟩ ≤ 0.0000001))]
    rw [show Line.point_sur_segment ⟨q, ⟨0, 0⟩⟩ ci.c = none by
      unfold Line.point_sur_segment Line.length V2.len
      norm_num]

/-- Counterexample to claim C10 as stated: `Circle.intersect` on a concrete
    circle and a zero-direction line reaches the division by the line's zero
    length inside `point_sur_segment` (Python raises ZeroDivisionError,
    modelled as `none`), so not every division is guarded. -/
theorem C10_zero_line_counterexample :
    Circle.intersect ⟨⟨0, 0⟩, 1⟩ ⟨⟨0, 0⟩, ⟨0, 0⟩⟩ = none ∧
    Line.length ⟨⟨0, 0⟩, ⟨0, 0⟩⟩ = 0 := by
  constructor
  · simp only [Circle.intersect]
    rw [if_pos (Or.inl (by norm_num [dotv] : dotv (⟨0, 0⟩ : V2) ⟨0, 0⟩ ≤ 0.0000001))]
    rw [show Line.point_sur_segment ⟨⟨0, 0⟩, ⟨0, 0⟩⟩ (⟨0, 0⟩ : V2) = none by
      unfold Line.point_sur_segment Line.length V2.len
      norm_num]
  · unfold Line.length V2.len
    norm_num

theorem sqrt16 : Real.sqrt 16 = 4 := by
  rw [show (16:ℝ) = 4 ^ 2 by norm_num, Real.sqrt_sq (by norm_num : (0:ℝ) ≤ 4)]

/-- Claim C7: the arc/arc no-intersection guard.  The spec's condition
    `dist < |r_prev - r_new_offset|` holds at this input (4 < 6), so the
    claim requires the un-joined offset arc to be returned with previous
    unchanged; but the source's guard compares against the un-offset
    original radius (`abs(last.r - self.r)` = 1), passes, and then calls
    `sqrt(last.r2 - a*a)` with a negative argument (1 - 16 = -15): a
    ValueError crash in Python, modelled as `none`. -/
theorem C7_arcarc_guard_bug :
    Arc.make_offset ⟨⟨4, 0⟩, 2, 0, Real.pi / 2⟩ 5
        (some (Seg.arc ⟨⟨0, 0⟩, 1, 0, Real.pi / 2⟩)) = none ∧
    (Arc.offset ⟨⟨4, 0⟩, 2, 0, Real.pi / 2⟩ 5).r = 7 ∧
    V2.len ((⟨4, 0⟩ : V2) - ⟨0, 0⟩) = 4 ∧
    (4:ℝ) < |(1:ℝ) - 7| ∧
    ¬ ((4:ℝ) > 7 + 1 ∨ (4:ℝ) < |(1:ℝ) - 2|) ∧
    (1:ℝ) * 1 - ((1 * 1 - 7 * 7 + 4 * 4) / (2 * 4)) ^ 2 < 0 := by
  have hoffarc : Arc.offset ⟨⟨4, 0⟩, 2, 0, Real.pi / 2⟩ 5 = ⟨⟨4, 0⟩, 7, 0, Real.pi / 2⟩ := by
    unfold Arc.offset
    rw [if_pos (by positivity : (0:ℝ) < Real.pi / 2)]
    ext <;> norm_num
  have hsub : (⟨4, 0⟩ : V2) - ⟨0, 0⟩ = ⟨4, 0⟩ := by ext <;> norm_num
  have hlen4 : V2.len ⟨4, 0⟩ = 4 := by
    unfold V2.len
    norm_num [sqrt16]
  have hp0self : Arc.p0 ⟨⟨4, 0⟩, 2, 0, Real.pi / 2⟩ = ⟨6, 0⟩ := by
    unfold Arc.p0 Arc.lerp
    ext <;> norm_num
  have hpsur : Line.point_sur_segment ⟨⟨0, 0⟩, ⟨4, 0⟩⟩ ⟨6, 0⟩ = some (false, 0, 3/2) := by
    unfold Line.point_sur_segment Line.length
    rw [hlen4]
    norm_num [dotv]
  refine ⟨?_, by rw [hoffarc], by rw [hsub, hlen4], by norm_num, by norm_num, by norm_num⟩
  simp only [Arc.make_offset, hoffarc, hsub, hp0self, hpsur, hlen4]
  rw [if_neg (by norm_num : ¬((4:ℝ) > 7 + 1 ∨ (4:ℝ) < |(1:ℝ) - 2|))]
  rw [if_neg (by norm_num : ¬((4:ℝ) = 7 + 1))]
  rw [if_pos (by norm_num [Arc.r2] :
    Arc.r2 ⟨⟨0, 0⟩, 1, 0, Real.pi / 2⟩ -
      (Arc.r2 ⟨⟨0, 0⟩, 1, 0, Real.pi / 2⟩ - Arc.r2 ⟨⟨4, 0⟩, 7, 0, Real.pi / 2⟩ + 4 * 4) /
        (2.0 * 4) *
        ((Arc.r2 ⟨⟨0, 0⟩, 1, 0, Real.pi / 2⟩ - Arc.r2 ⟨⟨4, 0⟩, 7, 0, Real.pi / 2⟩ + 4 * 4) /
          (2.0 * 4)) < 0)]

end Archipack

end
